import Mathlib

/-!
Shallow embedding of the schema-synchronization and transactional-write core
of the eventnative repository, covering:

* `src/typing/datatype.go`   — logical data types and value/type inference,
* `src/storages/table_helper.go` — the table-schema cache and the
  create-or-evolve protocol (`EnsureTable`, `getOrCreate`, `unlock`),
* `src/storages/postgres.go` — the transactional write path (`Store`,
  `Insert`, `Close`).

Go functions become Lean functions.  Calls to the external ports (the
coordination service, the table manager, the schema processor, the SQL
adapter) are modelled by an environment of pure reply values, and every
port invocation is additionally recorded in an explicit trace so that
temporal claims ("operation X is never invoked on this path") are statable.
Go errors become `Except Err` / `Option Err` values.
-/

/-- Error values returned by Go functions, carrying the formatted message. -/
structure Err where
  msg : String
deriving DecidableEq, Repr

/-- Logical data type of typing.DataType, in the source's iota order
UNKNOWN, INT64, FLOAT64, STRING, TIMESTAMP. -/
inductive DataType where
  | UNKNOWN
  | INT64
  | FLOAT64
  | STRING
  | TIMESTAMP
deriving DecidableEq, Repr

/-- Lookup in the Go map inputStringToType of typing/datatype.go. -/
def inputStringToType (s : String) : Option DataType :=
  if s = "string" then some .STRING
  else if s = "integer" then some .INT64
  else if s = "double" then some .FLOAT64
  else if s = "timestamp" then some .TIMESTAMP
  else none

/-- Lookup in the Go map typeToInputString of typing/datatype.go. -/
def typeToInputString : DataType → Option String
  | .STRING => some "string"
  | .INT64 => some "integer"
  | .FLOAT64 => some "double"
  | .TIMESTAMP => some "timestamp"
  | .UNKNOWN => none

/-- Go strings.TrimSpace: drop leading and trailing whitespace characters. -/
def goTrimSpace (s : String) : String :=
  ⟨((s.data.dropWhile Char.isWhitespace).reverse.dropWhile Char.isWhitespace).reverse⟩

/-- Go strings.ToLower: lowercase every character. -/
def goToLower (s : String) : String :=
  ⟨s.data.map Char.toLower⟩

/-- typing.TypeFromString: trim whitespace, lowercase, look up the external
name; unknown names are an error. -/
def TypeFromString (t : String) : Except Err DataType :=
  let lowerTrimmed := goToLower (goTrimSpace t)
  match inputStringToType lowerTrimmed with
  | some dataType => .ok dataType
  | none => .error ⟨"Unknown casting type: " ++ t⟩

/-- typing.StringFromType: inverse lookup; a DataType with no external
representation (only UNKNOWN) is an error. -/
def StringFromType (dataType : DataType) : Except Err String :=
  match typeToInputString dataType with
  | some str => .ok str
  | none => .error ⟨"Unable to get string from DataType"⟩

/-- Model of a Go float64 value: every finite float64 is an exactly
representable rational; NaN and the two infinities are separate states.
float32 values embed exactly into float64, so they share this carrier. -/
inductive GoFloat where
  | finite (q : ℚ)
  | nan
  | posInf
  | negInf
deriving DecidableEq, Repr

/-- Truncation toward zero of a rational, which is how Go's math.Trunc acts
on the rational value of a finite float (the truncation of a finite float64
is always exactly representable as a float64). -/
def ratTrunc (q : ℚ) : ℚ := ((Int.tdiv q.num q.den : ℤ) : ℚ)

/-- Go math.Trunc on the float model: truncate finite values toward zero;
NaN and the infinities map to themselves. -/
def GoFloat.trunc : GoFloat → GoFloat
  | .finite q => .finite (ratTrunc q)
  | .nan => .nan
  | .posInf => .posInf
  | .negInf => .negInf

/-- Go float equality: NaN compares unequal to everything, itself included. -/
def GoFloat.goEq : GoFloat → GoFloat → Bool
  | .finite a, .finite b => a == b
  | .posInf, .posInf => true
  | .negInf, .negInf => true
  | _, _ => false

/-- A decoded scalar value as seen by typing.TypeFromValue: Go's interface
value is one of a string, a float32, a float64, one of the signed integer
types (collapsed to their mathematical value), a time.Time (abstracted to an
instant), or a value of any other runtime type. -/
inductive GoValue where
  | str (s : String)
  | f32 (f : GoFloat)
  | f64 (f : GoFloat)
  | int (n : ℤ)
  | time (t : ℤ)
  | other (desc : String)
deriving DecidableEq, Repr

/-- typing.TypeFromValue: the type switch of datatype.go.  A float32 is first
converted (exactly) to float64; a float whose math.Trunc equals itself is
INT64, otherwise FLOAT64. -/
def TypeFromValue : GoValue → Except Err DataType
  | .str _ => .ok .STRING
  | .f32 f => if (GoFloat.trunc f).goEq f then .ok .INT64 else .ok .FLOAT64
  | .f64 f => if (GoFloat.trunc f).goEq f then .ok .INT64 else .ok .FLOAT64
  | .int _ => .ok .INT64
  | .time _ => .ok .TIMESTAMP
  | .other d => .error ⟨"Unknown DataType for value: " ++ d⟩

/-- C7: TypeFromValue maps every string to STRING, every native time value to
TIMESTAMP, every integer value to INT64, every float32/float64 value whose
truncation equals itself to INT64, every other float32/float64 value to
FLOAT64, and every value of any other type to an unknown-type error. -/
theorem typeFromValue_total_mapping :
    (∀ s, TypeFromValue (.str s) = .ok .STRING) ∧
    (∀ t, TypeFromValue (.time t) = .ok .TIMESTAMP) ∧
    (∀ n, TypeFromValue (.int n) = .ok .INT64) ∧
    (∀ f, (GoFloat.trunc f).goEq f = true →
      TypeFromValue (.f32 f) = .ok .INT64 ∧ TypeFromValue (.f64 f) = .ok .INT64) ∧
    (∀ f, (GoFloat.trunc f).goEq f = false →
      TypeFromValue (.f32 f) = .ok .FLOAT64 ∧ TypeFromValue (.f64 f) = .ok .FLOAT64) ∧
    (∀ d, ∃ e, TypeFromValue (.other d) = .error e) := by
  refine ⟨fun _ => rfl, fun _ => rfl, fun _ => rfl, ?_, ?_, fun d => ⟨_, rfl⟩⟩ <;>
    · intro f h
      constructor <;> simp [TypeFromValue, h]

/-- The rational 3/2, written with an explicit numerator and denominator so
that kernel reduction never has to normalize a fraction. -/
def threeHalves : ℚ := ⟨3, 2, by norm_num, by norm_num⟩

/-- Witness for C7 at concrete inputs: 3/2 is a non-integral float (FLOAT64),
7.0 is an integral float (INT64), and a string maps to STRING. -/
theorem typeFromValue_total_mapping_witness :
    TypeFromValue (.f64 (.finite threeHalves)) = .ok .FLOAT64 ∧
    TypeFromValue (.f64 (.finite 7)) = .ok .INT64 ∧
    TypeFromValue (.str "a") = .ok .STRING := by
  have h := typeFromValue_total_mapping
  exact ⟨(h.2.2.2.2.1 _ (by decide)).2, (h.2.2.2.1 _ (by decide)).2, h.1 "a"⟩

/-- C8: TypeFromString and StringFromType are inverse on the valid domain:
for every string s whose lowercase whitespace-trimmed normalization is a known
external type name, StringFromType (TypeFromString s) returns that
normalization; TypeFromString of an unknown name errors, and StringFromType
of UNKNOWN errors. -/
theorem typeFromString_stringFromType_inverse :
    (∀ s dt, TypeFromString s = .ok dt →
      StringFromType dt = .ok (goToLower (goTrimSpace s))) ∧
    (∀ s, inputStringToType (goToLower (goTrimSpace s)) = none →
      ∃ e, TypeFromString s = .error e) ∧
    (∃ e, StringFromType .UNKNOWN = .error e) := by
  refine ⟨?_, ?_, ⟨_, rfl⟩⟩
  · intro s dt h
    simp only [TypeFromString, inputStringToType] at h
    split_ifs at h with h1 h2 h3 h4
    · injection h with h5; subst h5; rw [h1]; rfl
    · injection h with h5; subst h5; rw [h2]; rfl
    · injection h with h5; subst h5; rw [h3]; rfl
    · injection h with h5; subst h5; rw [h4]; rfl
  · intro s h
    refine ⟨⟨"Unknown casting type: " ++ s⟩, ?_⟩
    simp only [TypeFromString, h]

/-- Witness for C8 at concrete inputs: a name needing trimming and lowering
round-trips to its normalization, and an unknown name errors. -/
theorem typeFromString_stringFromType_inverse_witness :
    StringFromType .INT64 = .ok (goToLower (goTrimSpace "  Integer ")) ∧
    (∃ e, TypeFromString "bogus" = .error e) := by
  have h := typeFromString_stringFromType_inverse
  exact ⟨h.1 "  Integer " .INT64 (by rfl), h.2.1 "bogus" (by rfl)⟩

/-- A schema column of the schema package, modelled from the spec: a name
paired with a logical type. -/
structure Column where
  name : String
  dataType : DataType
deriving DecidableEq, Repr

/-- schema.Table, modelled from the spec: a table name, a mapping of column
name to column (represented as an association list with unique keys), and an
integer version. -/
structure Table where
  name : String
  columns : List (String × Column)
  version : Int
deriving DecidableEq, Repr

/-- Lookup of a column by name in a column map. -/
def lookupCol (cols : List (String × Column)) (k : String) : Option Column :=
  (cols.find? (fun kv => kv.1 == k)).map (fun kv => kv.2)

/-- Modelled from the spec: the schema package's existence check (used both
for Table.Exists and SchemaDiff.Exists, which coincide in the repository
because a diff is itself a table).  A zero-value/absent schema — no columns —
is distinguished from a real one; for a diff, no columns means no migration
is needed.  The schema package is not among the analysed sources. -/
def Table.Exists (t : Table) : Bool := !t.columns.isEmpty

/-- Modelled from the spec: schema.Table's Diff — the additive set of columns
present in the desired schema but absent from the current schema.  The spec
also mentions type-incompatible columns; only the additive part matters to
the claims settled here and only additive diffs are ever patched.  Diff
computation is pure; the source's error return from Diff is modelled as
never firing.  The schema package is not among the analysed sources. -/
def Table.Diff (dbSchema dataSchema : Table) : Table :=
  { name := dataSchema.name
    columns := dataSchema.columns.filter (fun kv => (lookupCol dbSchema.columns kv.1).isNone)
    version := 0 }

/-- One observable invocation of a Coordination Port or Table Manager Port
operation, recorded whether or not the operation succeeds. -/
inductive PortOp where
  | lock (destination table : String)
  | unlockAttempt (table : String) (attempt : Nat)
  | logUnlockError (table : String)
  | getVersion (destination table : String)
  | incrementVersion (destination table : String)
  | getTableSchema (table : String)
  | createTable (t : Table)
  | patchTableSchema (d : Table)
deriving DecidableEq, Repr

/-- Pure model of the external ports consumed by the table helper: each
operation's reply is a fixed value of the environment; unlockFails gives the
outcome of the n-th unlock attempt. -/
structure Env where
  lockResult : Except Err Unit
  getVersionResult : Except Err Int
  incrementResult : Except Err Int
  getTableSchemaResult : Except Err Table
  createTableResult : Option Err
  patchResult : Option Err
  unlockFails : Nat → Bool

/-- The constant unlockRetryCount of table_helper.go. -/
def unlockRetryCount : Nat := 5

/-- Recursion core of TableHelper.unlock.  The fuel argument makes the
recursion structural; unlock always supplies enough fuel for the retry
counter to reach unlockRetryCount, so the out-of-fuel branch is never taken
on the call domain of the Go code (initial retry = 1). -/
def unlockLoop (env : Env) (tableName : String) : Nat → Nat → List PortOp
  | _, 0 => []
  | retry, fuel + 1 =>
    if env.unlockFails retry then
      if retry = unlockRetryCount then
        [PortOp.unlockAttempt tableName retry, PortOp.logUnlockError tableName]
      else
        PortOp.unlockAttempt tableName retry :: unlockLoop env tableName (retry + 1) fuel
    else
      [PortOp.unlockAttempt tableName retry]

/-- TableHelper.unlock: try to release the lock; on failure recurse with the
retry counter incremented until it reaches unlockRetryCount, then log a
system error.  Only the trace is observable — the Go function returns
nothing and its outcome is never consulted by EnsureTable. -/
def unlock (env : Env) (tableName : String) (retry : Nat) : List PortOp :=
  unlockLoop env tableName retry (unlockRetryCount + 1 - retry)

/-- Body of TableHelper.getOrCreate after the lock is held: fetch the current
schema; if absent, create the desired table and increment the version; if
present, read the current version and adopt it. -/
def getOrCreateBody (env : Env) (destinationName : String) (dataSchema : Table) :
    Except Err Table × List PortOp :=
  match env.getTableSchemaResult with
  | .error e =>
    (.error ⟨"Error getting table schema: " ++ e.msg⟩,
     [PortOp.getTableSchema dataSchema.name])
  | .ok dbTableSchema =>
    if !(Table.Exists dbTableSchema) then
      match env.createTableResult with
      | some e =>
        (.error ⟨"Error creating table: " ++ e.msg⟩,
         [PortOp.getTableSchema dataSchema.name, PortOp.createTable dataSchema])
      | none =>
        match env.incrementResult with
        | .error e =>
          (.error ⟨"Error incrementing version: " ++ e.msg⟩,
           [PortOp.getTableSchema dataSchema.name, PortOp.createTable dataSchema,
            PortOp.incrementVersion destinationName dataSchema.name])
        | .ok ver =>
          (.ok { dataSchema with version := ver },
           [PortOp.getTableSchema dataSchema.name, PortOp.createTable dataSchema,
            PortOp.incrementVersion destinationName dataSchema.name])
    else
      match env.getVersionResult with
      | .error e =>
        (.error ⟨"Error getting version: " ++ e.msg⟩,
         [PortOp.getTableSchema dataSchema.name,
          PortOp.getVersion destinationName dbTableSchema.name])
      | .ok ver =>
        (.ok { dbTableSchema with version := ver },
         [PortOp.getTableSchema dataSchema.name,
          PortOp.getVersion destinationName dbTableSchema.name])

/-- TableHelper.getOrCreate: acquire the distributed lock (failing the call if
that fails), run the body, and — the deferred unlock — release the lock on
every exit path of the body. -/
def getOrCreate (env : Env) (destinationName : String) (dataSchema : Table) :
    Except Err Table × List PortOp :=
  match env.lockResult with
  | .error e =>
    (.error ⟨"System error locking table: " ++ e.msg⟩,
     [PortOp.lock destinationName dataSchema.name])
  | .ok _ =>
    let r := getOrCreateBody env destinationName dataSchema
    (r.1, PortOp.lock destinationName dataSchema.name :: r.2 ++ unlock env dataSchema.name 1)

/-- The in-process schema cache of TableHelper (tables map), an association
list from table name to the last known schema. -/
abbrev Cache := List (String × Table)

/-- Map read of the tables cache. -/
def cacheFind (c : Cache) (k : String) : Option Table :=
  (c.find? (fun kv => kv.1 == k)).map (fun kv => kv.2)

/-- Map write of the tables cache (insert or overwrite at a key). -/
def cacheInsert (c : Cache) (k : String) (t : Table) : Cache :=
  if c.any (fun kv => kv.1 == k) then
    c.map (fun kv => if kv.1 == k then (k, t) else kv)
  else
    (k, t) :: c

/-- Go map assignment on a column map: insert or overwrite one key. -/
def colUpsert (cols : List (String × Column)) (k : String) (v : Column) :
    List (String × Column) :=
  if cols.any (fun kv => kv.1 == k) then
    cols.map (fun kv => if kv.1 == k then (k, v) else kv)
  else
    cols ++ [(k, v)]

/-- The merge loop of EnsureTable: every column of the diff is written into
the schema's column map. -/
def mergeColumns (base diffCols : List (String × Column)) : List (String × Column) :=
  diffCols.foldl (fun acc kv => colUpsert acc kv.1 kv.2) base

/-- Final stage of EnsureTable, lines 87..108 of table_helper.go: if the
(possibly recomputed) diff is empty return the schema as is; otherwise patch
the destination, increment the version counter, and merge the diff's columns
and the new version into the local schema object.  aliasKey is some k exactly
when the local dbTableSchema pointer is the object stored in the cache at key
k, so that Go's in-place mutation of it also updates the cache; after a
re-fetch the local points at a fresh object and the cache entry is untouched. -/
def patchFinish (env : Env) (destinationName : String) (cache : Cache)
    (dbTableSchema schemaDiff : Table) (aliasKey : Option String) :
    Except Err Table × Cache × List PortOp :=
  if !(Table.Exists schemaDiff) then (.ok dbTableSchema, cache, [])
  else
    match env.patchResult with
    | some e => (.error e, cache, [PortOp.patchTableSchema schemaDiff])
    | none =>
      match env.incrementResult with
      | .error e =>
        (.error ⟨"Error incrementing version: " ++ e.msg⟩, cache,
         [PortOp.patchTableSchema schemaDiff,
          PortOp.incrementVersion destinationName dbTableSchema.name])
      | .ok newVersion =>
        let merged : Table :=
          { dbTableSchema with
              columns := mergeColumns dbTableSchema.columns schemaDiff.columns
              version := newVersion }
        let cache2 :=
          match aliasKey with
          | some k => cacheInsert cache k merged
          | none => cache
        (.ok merged, cache2,
         [PortOp.patchTableSchema schemaDiff,
          PortOp.incrementVersion destinationName dbTableSchema.name])

/-- Middle stage of EnsureTable under the lock, lines 67..85: read the
authoritative version; on mismatch with the cached version, re-fetch the real
schema from the destination, adopt the read version, and recompute the diff
(losing the cache alias); then finish. -/
def ensureMutateBody (env : Env) (destinationName : String) (cache : Cache)
    (dataSchema dbTableSchema schemaDiff : Table) (aliasKey : Option String) :
    Except Err Table × Cache × List PortOp :=
  match env.getVersionResult with
  | .error e =>
    (.error ⟨"Error getting version: " ++ e.msg⟩, cache,
     [PortOp.getVersion destinationName dbTableSchema.name])
  | .ok ver =>
    if ver ≠ dbTableSchema.version then
      match env.getTableSchemaResult with
      | .error e =>
        (.error ⟨"Error getting table schema: " ++ e.msg⟩, cache,
         [PortOp.getVersion destinationName dbTableSchema.name,
          PortOp.getTableSchema dataSchema.name])
      | .ok fetched =>
        let refetched := { fetched with version := ver }
        let r := patchFinish env destinationName cache refetched
          (Table.Diff refetched dataSchema) none
        (r.1, r.2.1,
         PortOp.getVersion destinationName dbTableSchema.name ::
           PortOp.getTableSchema dataSchema.name :: r.2.2)
    else
      let r := patchFinish env destinationName cache dbTableSchema schemaDiff aliasKey
      (r.1, r.2.1, PortOp.getVersion destinationName dbTableSchema.name :: r.2.2)

/-- The mutation path of EnsureTable, lines 61..108: acquire the distributed
lock, run the optimistic re-check and patch under it, and — the deferred
unlock — release the lock on every exit path. -/
def ensureMutate (env : Env) (destinationName : String) (cache : Cache)
    (dataSchema dbTableSchema schemaDiff : Table) (aliasKey : Option String) :
    Except Err Table × Cache × List PortOp :=
  match env.lockResult with
  | .error e =>
    (.error ⟨"System error locking table: " ++ e.msg⟩, cache,
     [PortOp.lock destinationName dbTableSchema.name])
  | .ok _ =>
    let r := ensureMutateBody env destinationName cache dataSchema dbTableSchema
      schemaDiff aliasKey
    (r.1, r.2.1,
     PortOp.lock destinationName dbTableSchema.name ::
       r.2.2 ++ unlock env dataSchema.name 1)

/-- Diff and branch of EnsureTable, lines 50..58: compute the diff of the
local schema against the desired one; if it does not exist, return the local
schema unchanged (the lock-free fast path); otherwise enter the mutation
path. -/
def ensureAfterCache (env : Env) (destinationName : String) (cache : Cache)
    (dataSchema dbTableSchema : Table) (aliasKey : Option String) :
    Except Err Table × Cache × List PortOp :=
  let schemaDiff := Table.Diff dbTableSchema dataSchema
  if !(Table.Exists schemaDiff) then (.ok dbTableSchema, cache, [])
  else ensureMutate env destinationName cache dataSchema dbTableSchema schemaDiff aliasKey

/-- TableHelper.EnsureTable of table_helper.go.  On a cache miss, getOrCreate
resolves the schema and the result is saved in the cache under its own name
(the local variable then aliases the cache entry); on a hit the local
variable aliases the entry under the desired schema's name.  The call returns
the resulting schema, the new cache, and the trace of port operations. -/
def EnsureTable (env : Env) (destinationName : String) (cache : Cache)
    (dataSchema : Table) : Except Err Table × Cache × List PortOp :=
  match cacheFind cache dataSchema.name with
  | some dbTableSchema =>
    ensureAfterCache env destinationName cache dataSchema dbTableSchema
      (some dataSchema.name)
  | none =>
    let r := getOrCreate env destinationName dataSchema
    match r.1 with
    | .error e => (.error e, cache, r.2)
    | .ok dbTableSchema =>
      let cache1 := cacheInsert cache dbTableSchema.name dbTableSchema
      let rest := ensureAfterCache env destinationName cache1 dataSchema dbTableSchema
        (some dbTableSchema.name)
      (rest.1, rest.2.1, r.2 ++ rest.2.2)

/-- A column key that occurs in a column map is found by lookupCol. -/
theorem lookupCol_isSome_of_mem {cols : List (String × Column)} {kv : String × Column}
    (h : kv ∈ cols) : (lookupCol cols kv.1).isSome = true := by
  unfold lookupCol
  cases hf : cols.find? (fun kv2 => kv2.1 == kv.1) with
  | some x => simp
  | none =>
    have := List.find?_eq_none.mp hf kv h
    simp at this

/-- A schema whose column map equals the desired schema's has an empty diff
against it. -/
theorem diff_exists_false_of_same_columns (t s : Table) (h : t.columns = s.columns) :
    Table.Exists (Table.Diff t s) = false := by
  have hnil : s.columns.filter (fun kv => (lookupCol t.columns kv.1).isNone) = [] := by
    rw [List.filter_eq_nil_iff]
    intro kv hkv
    have hs : (lookupCol t.columns kv.1).isSome = true := by
      rw [h]; exact lookupCol_isSome_of_mem hkv
    cases hl : lookupCol t.columns kv.1 with
    | none => rw [hl] at hs; simp at hs
    | some c => simp [hl]
  simp [Table.Exists, Table.Diff, hnil]

/-- Replacing the value at a present key makes it what find? returns. -/
theorem find_map_replace (c : Cache) (k : String) (t : Table)
    (h : c.any (fun kv => kv.1 == k) = true) :
    (c.map (fun kv => if kv.1 == k then (k, t) else kv)).find? (fun kv => kv.1 == k) =
      some (k, t) := by
  induction c with
  | nil => simp at h
  | cons kv rest ih =>
    simp only [List.map_cons]
    by_cases hk : (kv.1 == k) = true
    · rw [if_pos hk, List.find?_cons_of_pos _ (by simp)]
    · have hk2 : (kv.1 == k) = false := by simpa using hk
      rw [if_neg hk]
      simp only [List.find?, hk2]
      exact ih (by simpa [hk2] using h)

/-- Reading back the key just written into the cache yields the new schema. -/
theorem cacheFind_cacheInsert_self (c : Cache) (k : String) (t : Table) :
    cacheFind (cacheInsert c k t) k = some t := by
  unfold cacheInsert cacheFind
  by_cases h : c.any (fun kv => kv.1 == k) = true
  · rw [if_pos h, find_map_replace c k t h]
    rfl
  · rw [if_neg h, List.find?_cons_of_pos _ (by simp)]
    rfl

/-- Every action the unlock retry loop emits is an unlock attempt or the
final unlock log line. -/
theorem unlockLoop_mem (env : Env) (tableName : String) :
    ∀ fuel retry a, a ∈ unlockLoop env tableName retry fuel →
      (∃ n, a = PortOp.unlockAttempt tableName n) ∨ a = PortOp.logUnlockError tableName := by
  intro fuel
  induction fuel with
  | zero => intro retry a ha; simp [unlockLoop] at ha
  | succ n ih =>
    intro retry a ha
    simp only [unlockLoop] at ha
    by_cases h1 : env.unlockFails retry = true
    · rw [if_pos h1] at ha
      by_cases h2 : retry = unlockRetryCount
      · rw [if_pos h2] at ha
        simp only [List.mem_cons, List.not_mem_nil, or_false] at ha
        rcases ha with ha | ha
        · exact Or.inl ⟨retry, ha⟩
        · exact Or.inr ha
      · rw [if_neg h2] at ha
        rcases List.mem_cons.mp ha with ha | ha
        · exact Or.inl ⟨retry, ha⟩
        · exact ih _ a ha
    · rw [if_neg h1] at ha
      rcases List.mem_cons.mp ha with ha | ha
      · exact Or.inl ⟨retry, ha⟩
      · simp at ha

/-- Specialization of unlockLoop_mem to unlock. -/
theorem unlock_mem (env : Env) (tableName : String) (retry : Nat) (a : PortOp)
    (ha : a ∈ unlock env tableName retry) :
    (∃ n, a = PortOp.unlockAttempt tableName n) ∨ a = PortOp.logUnlockError tableName :=
  unlockLoop_mem env tableName _ retry a ha

/-- C3: for every EnsureTable call on a table already present in the
in-process cache whose diff against the desired schema is empty, the cached
schema is returned unchanged, the cache is untouched, and the trace of port
operations is empty — no Lock, GetVersion, IncrementVersion, and no Table
Manager operation is invoked. -/
theorem ensureTable_empty_diff_lock_free (env : Env) (destinationName : String)
    (cache : Cache) (dataSchema dbTableSchema : Table)
    (hcache : cacheFind cache dataSchema.name = some dbTableSchema)
    (hdiff : Table.Exists (Table.Diff dbTableSchema dataSchema) = false) :
    EnsureTable env destinationName cache dataSchema = (.ok dbTableSchema, cache, []) := by
  simp [EnsureTable, hcache, ensureAfterCache, hdiff]

/-- Concrete column used by the concrete scenarios. -/
def colA : Column := ⟨"a", DataType.STRING⟩

/-- Concrete column used by the concrete scenarios. -/
def colB : Column := ⟨"b", DataType.STRING⟩

/-- Concrete one-column schema at version 1. -/
def tableA : Table := ⟨"events", [("a", colA)], 1⟩

/-- Concrete two-column desired schema. -/
def tableAB : Table := ⟨"events", [("a", colA), ("b", colB)], 1⟩

/-- Concrete two-column destination schema as fetched (version still 0). -/
def tableABv0 : Table := ⟨"events", [("a", colA), ("b", colB)], 0⟩

/-- Environment in which every port operation succeeds and the authoritative
version matches the cached version 1. -/
def okEnv : Env :=
  { lockResult := .ok ()
    getVersionResult := .ok 1
    incrementResult := .ok 2
    getTableSchemaResult := .ok tableA
    createTableResult := none
    patchResult := none
    unlockFails := fun _ => false }

/-- Witness for C3: with the one-column schema cached and desired, EnsureTable
returns it unchanged with an empty trace. -/
theorem ensureTable_empty_diff_lock_free_witness :
    EnsureTable okEnv "dest" [("events", tableA)] tableA =
      (.ok tableA, [("events", tableA)], []) :=
  ensureTable_empty_diff_lock_free okEnv "dest" [("events", tableA)] tableA tableA
    (by rfl) (by rfl)

/-- When the diff handed to patchFinish is empty, nothing happens: the schema
is returned as is, the cache is untouched and no action is emitted. -/
theorem patchFinish_empty (env : Env) (destinationName : String) (cache : Cache)
    (dbTableSchema schemaDiff : Table) (aliasKey : Option String)
    (h : Table.Exists schemaDiff = false) :
    patchFinish env destinationName cache dbTableSchema schemaDiff aliasKey =
      (.ok dbTableSchema, cache, []) := by
  simp [patchFinish, h]

/-- Every patch action emitted by patchFinish carries exactly the diff it was
given. -/
theorem patchFinish_patch_mem (env : Env) (destinationName : String) (cache : Cache)
    (dbTableSchema schemaDiff : Table) (aliasKey : Option String) (d : Table)
    (hd : PortOp.patchTableSchema d ∈
      (patchFinish env destinationName cache dbTableSchema schemaDiff aliasKey).2.2) :
    d = schemaDiff := by
  unfold patchFinish at hd
  by_cases h : Table.Exists schemaDiff = false
  · rw [if_pos (by simp [h])] at hd
    simp at hd
  · rw [if_neg (by simp at h ⊢; exact h)] at hd
    cases hp : env.patchResult with
    | some e => rw [hp] at hd; simp at hd; exact hd
    | none =>
      rw [hp] at hd
      cases hi : env.incrementResult with
      | error e => rw [hi] at hd; simp at hd; tauto
      | ok n => rw [hi] at hd; simp at hd; tauto

/-- Environment for the reconciliation scenario: the lock succeeds, the
authoritative version counter is 2 while the cache holds version 1, and the
destination's real schema already has both columns. -/
def reconEnv : Env :=
  { lockResult := .ok ()
    getVersionResult := .ok 2
    incrementResult := .ok 3
    getTableSchemaResult := .ok tableABv0
    createTableResult := none
    patchResult := none
    unlockFails := fun _ => false }

/-- C1: when EnsureTable finds a non-empty diff against the cached schema, it
locks and reads the authoritative version; if that version differs from the
cached schema's, it re-fetches the real schema, adopts the read version, and
recomputes the diff — returning early with no patch and no increment if the
recomputed diff is empty — and any diff it does patch is the recomputed one,
never the stale one. -/
theorem ensureTable_optimistic_reconcile (env : Env) (destinationName : String)
    (cache : Cache) (dataSchema dbTableSchema fetched : Table) (v : Int)
    (hcache : cacheFind cache dataSchema.name = some dbTableSchema)
    (hdiff : Table.Exists (Table.Diff dbTableSchema dataSchema) = true)
    (hlock : env.lockResult = .ok ())
    (hver : env.getVersionResult = .ok v)
    (hne : v ≠ dbTableSchema.version)
    (hfetch : env.getTableSchemaResult = .ok fetched) :
    (Table.Exists (Table.Diff { fetched with version := v } dataSchema) = false →
      (EnsureTable env destinationName cache dataSchema).1 =
          .ok { fetched with version := v } ∧
        (EnsureTable env destinationName cache dataSchema).2.1 = cache ∧
        (∀ d, PortOp.patchTableSchema d ∉
          (EnsureTable env destinationName cache dataSchema).2.2) ∧
        (∀ dn tn, PortOp.incrementVersion dn tn ∉
          (EnsureTable env destinationName cache dataSchema).2.2)) ∧
    (∀ d, PortOp.patchTableSchema d ∈
        (EnsureTable env destinationName cache dataSchema).2.2 →
      d = Table.Diff { fetched with version := v } dataSchema) := by
  constructor
  · intro hempty
    have hpf := patchFinish_empty env destinationName cache { fetched with version := v }
      (Table.Diff { fetched with version := v } dataSchema) none hempty
    refine ⟨?_, ?_, ?_, ?_⟩
    · simp [EnsureTable, hcache, ensureAfterCache, hdiff, ensureMutate, hlock,
        ensureMutateBody, hver, hne, hfetch, hpf]
    · simp [EnsureTable, hcache, ensureAfterCache, hdiff, ensureMutate, hlock,
        ensureMutateBody, hver, hne, hfetch, hpf]
    · intro d hd
      simp [EnsureTable, hcache, ensureAfterCache, hdiff, ensureMutate, hlock,
        ensureMutateBody, hver, hne, hfetch, hpf] at hd
      rcases unlock_mem env dataSchema.name 1 _ hd with ⟨n, h⟩ | h <;> simp at h
    · intro dn tn hd
      simp [EnsureTable, hcache, ensureAfterCache, hdiff, ensureMutate, hlock,
        ensureMutateBody, hver, hne, hfetch, hpf] at hd
      rcases unlock_mem env dataSchema.name 1 _ hd with ⟨n, h⟩ | h <;> simp at h
  · intro d hd
    simp [EnsureTable, hcache, ensureAfterCache, hdiff, ensureMutate, hlock,
      ensureMutateBody, hver, hne, hfetch] at hd
    rcases hd with hd | hd
    · exact patchFinish_patch_mem _ _ _ _ _ _ _ hd
    · rcases unlock_mem env dataSchema.name 1 _ hd with ⟨n, h⟩ | h <;> simp at h

/-- Witness for C1: cached version 1, authoritative version 2, and a
destination that already satisfies the desired two-column schema — EnsureTable
adopts the refetched schema at version 2 and neither patches nor increments;
in particular the stale diff is never patched. -/
theorem ensureTable_optimistic_reconcile_witness :
    (EnsureTable reconEnv "dest" [("events", tableA)] tableAB).1 =
        .ok { tableABv0 with version := 2 } ∧
      (EnsureTable reconEnv "dest" [("events", tableA)] tableAB).2.1 =
        [("events", tableA)] ∧
      PortOp.patchTableSchema (Table.Diff tableA tableAB) ∉
        (EnsureTable reconEnv "dest" [("events", tableA)] tableAB).2.2 ∧
      PortOp.incrementVersion "dest" "events" ∉
        (EnsureTable reconEnv "dest" [("events", tableA)] tableAB).2.2 := by
  have h := (ensureTable_optimistic_reconcile reconEnv "dest" [("events", tableA)]
    tableAB tableA tableABv0 2 (by rfl) (by rfl) (by rfl) (by rfl) (by decide)
    (by rfl)).1 (by rfl)
  exact ⟨h.1, h.2.1, h.2.2.1 _, h.2.2.2 _ _⟩

/-- getOrCreateBody never consults the unlock outcomes. -/
theorem getOrCreateBody_unlock_irrelevant (env : Env) (f : Nat → Bool)
    (destinationName : String) (dataSchema : Table) :
    getOrCreateBody { env with unlockFails := f } destinationName dataSchema =
      getOrCreateBody env destinationName dataSchema := rfl

/-- ensureMutateBody never consults the unlock outcomes. -/
theorem ensureMutateBody_unlock_irrelevant (env : Env) (f : Nat → Bool)
    (destinationName : String) (c : Cache) (dataSchema dbT sd : Table)
    (ak : Option String) :
    ensureMutateBody { env with unlockFails := f } destinationName c dataSchema dbT sd ak =
      ensureMutateBody env destinationName c dataSchema dbT sd ak := rfl

/-- The getOrCreate result (not the trace) is unchanged by unlock outcomes. -/
theorem getOrCreate_fst_unlock_irrelevant (env : Env) (f : Nat → Bool)
    (destinationName : String) (dataSchema : Table) :
    (getOrCreate { env with unlockFails := f } destinationName dataSchema).1 =
      (getOrCreate env destinationName dataSchema).1 := by
  unfold getOrCreate
  cases h : env.lockResult with
  | error e => simp [h]
  | ok u => simp [h]; rfl

/-- The ensureMutate result and cache (not the trace) are unchanged by unlock
outcomes. -/
theorem ensureMutate_unlock_irrelevant (env : Env) (f : Nat → Bool)
    (destinationName : String) (c : Cache) (dataSchema dbT sd : Table)
    (ak : Option String) :
    (ensureMutate { env with unlockFails := f } destinationName c dataSchema dbT sd ak).1 =
      (ensureMutate env destinationName c dataSchema dbT sd ak).1 ∧
    (ensureMutate { env with unlockFails := f } destinationName c dataSchema dbT sd ak).2.1 =
      (ensureMutate env destinationName c dataSchema dbT sd ak).2.1 := by
  unfold ensureMutate
  cases h : env.lockResult with
  | error e => simp [h]
  | ok u => simp [h]; exact ⟨rfl, rfl⟩

/-- The ensureAfterCache result and cache are unchanged by unlock outcomes. -/
theorem ensureAfterCache_unlock_irrelevant (env : Env) (f : Nat → Bool)
    (destinationName : String) (c : Cache) (dataSchema dbT : Table)
    (ak : Option String) :
    (ensureAfterCache { env with unlockFails := f } destinationName c dataSchema dbT ak).1 =
      (ensureAfterCache env destinationName c dataSchema dbT ak).1 ∧
    (ensureAfterCache { env with unlockFails := f } destinationName c dataSchema dbT ak).2.1 =
      (ensureAfterCache env destinationName c dataSchema dbT ak).2.1 := by
  unfold ensureAfterCache
  cases hd : Table.Exists (Table.Diff dbT dataSchema) <;>
    simp [hd, ensureMutate_unlock_irrelevant env f destinationName c dataSchema dbT _ ak]

/-- The EnsureTable result and cache are unchanged by unlock outcomes. -/
theorem ensureTable_unlock_irrelevant (env : Env) (f : Nat → Bool)
    (destinationName : String) (cache : Cache) (dataSchema : Table) :
    (EnsureTable { env with unlockFails := f } destinationName cache dataSchema).1 =
      (EnsureTable env destinationName cache dataSchema).1 ∧
    (EnsureTable { env with unlockFails := f } destinationName cache dataSchema).2.1 =
      (EnsureTable env destinationName cache dataSchema).2.1 := by
  unfold EnsureTable
  cases hc : cacheFind cache dataSchema.name with
  | some dbT =>
    simpa [hc] using
      ensureAfterCache_unlock_irrelevant env f destinationName cache dataSchema dbT
        (some dataSchema.name)
  | none =>
    have hg := getOrCreate_fst_unlock_irrelevant env f destinationName dataSchema
    cases hr : (getOrCreate env destinationName dataSchema).1 with
    | error e =>
      have hr2 : (getOrCreate { env with unlockFails := f } destinationName dataSchema).1 =
          .error e := by rw [hg, hr]
      simp [hc, hr, hr2]
    | ok dbT =>
      have hr2 : (getOrCreate { env with unlockFails := f } destinationName dataSchema).1 =
          .ok dbT := by rw [hg, hr]
      simpa [hc, hr, hr2] using
        ensureAfterCache_unlock_irrelevant env f destinationName
          (cacheInsert cache dbT.name dbT) dataSchema dbT (some dbT.name)

/-- When every release attempt fails, the unlock loop makes exactly the five
numbered attempts and then logs. -/
theorem unlock_all_fail (env : Env) (tableName : String)
    (h : ∀ n, env.unlockFails n = true) :
    unlock env tableName 1 =
      [PortOp.unlockAttempt tableName 1, PortOp.unlockAttempt tableName 2,
       PortOp.unlockAttempt tableName 3, PortOp.unlockAttempt tableName 4,
       PortOp.unlockAttempt tableName 5, PortOp.logUnlockError tableName] := by
  have e1 := h 1
  have e2 := h 2
  have e3 := h 3
  have e4 := h 4
  have e5 := h 5
  simp [unlock, unlockRetryCount, unlockLoop, e1, e2, e3, e4, e5]

/-- C5: unlock outcomes never change EnsureTable's result or cache, and a
persistently failing release is attempted exactly unlockRetryCount (5) times
before the failure is logged as a system error. -/
theorem ensureTable_unlock_retry_policy :
    (∀ env f destinationName cache dataSchema,
      (EnsureTable { env with unlockFails := f } destinationName cache dataSchema).1 =
        (EnsureTable env destinationName cache dataSchema).1 ∧
      (EnsureTable { env with unlockFails := f } destinationName cache dataSchema).2.1 =
        (EnsureTable env destinationName cache dataSchema).2.1) ∧
    (∀ env tableName, (∀ n, env.unlockFails n = true) →
      ((unlock env tableName 1).filter
          (fun a => match a with | PortOp.unlockAttempt _ _ => true | _ => false)).length =
        unlockRetryCount ∧
      PortOp.logUnlockError tableName ∈ unlock env tableName 1) := by
  constructor
  · intro env f destinationName cache dataSchema
    exact ensureTable_unlock_irrelevant env f destinationName cache dataSchema
  · intro env tableName h
    rw [unlock_all_fail env tableName h]
    constructor
    · simp [unlockRetryCount, List.filter]
    · simp

/-- Environment in which every unlock attempt fails. -/
def allFailEnv : Env := { reconEnv with unlockFails := fun _ => true }

/-- Witness for C5: with every release failing, the loop makes 5 attempts,
logs, and the EnsureTable outcome equals the one with releases succeeding. -/
theorem ensureTable_unlock_retry_policy_witness :
    (((unlock allFailEnv "events" 1).filter
        (fun a => match a with | PortOp.unlockAttempt _ _ => true | _ => false)).length =
      unlockRetryCount ∧
     PortOp.logUnlockError "events" ∈ unlock allFailEnv "events" 1) ∧
    (EnsureTable { reconEnv with unlockFails := fun _ => true } "dest"
        [("events", tableA)] tableAB).1 =
      (EnsureTable reconEnv "dest" [("events", tableA)] tableAB).1 := by
  exact ⟨ensureTable_unlock_retry_policy.2 allFailEnv "events" (fun n => rfl),
         (ensureTable_unlock_retry_policy.1 reconEnv (fun _ => true) "dest"
           [("events", tableA)] tableAB).1⟩

/-- Recognizer for IncrementVersion invocations in a trace. -/
def isIncrementOp : PortOp → Bool
  | .incrementVersion _ _ => true
  | _ => false

/-- Recognizer for GetTableSchema invocations in a trace. -/
def isGetTableSchemaOp : PortOp → Bool
  | .getTableSchema _ => true
  | _ => false

/-- Number of trace actions matching a recognizer. -/
def countOps (p : PortOp → Bool) (tr : List PortOp) : Nat := (tr.filter p).length

/-- The unlock loop performs no IncrementVersion call. -/
theorem unlock_filter_increment (env : Env) (tableName : String) (retry : Nat) :
    (unlock env tableName retry).filter isIncrementOp = [] := by
  rw [List.filter_eq_nil_iff]
  intro a ha
  rcases unlock_mem env tableName retry a ha with ⟨n, rfl⟩ | rfl <;> simp [isIncrementOp]

/-- The unlock loop performs no GetTableSchema call. -/
theorem unlock_filter_getTableSchema (env : Env) (tableName : String) (retry : Nat) :
    (unlock env tableName retry).filter isGetTableSchemaOp = [] := by
  rw [List.filter_eq_nil_iff]
  intro a ha
  rcases unlock_mem env tableName retry a ha with ⟨n, rfl⟩ | rfl <;> simp [isGetTableSchemaOp]

/-- C2 (amended): every successful EnsureTable mutation — creating an absent
table or patching a non-empty diff — invokes IncrementVersion exactly once and
returns a schema whose version is the increment's value, with the diff's
columns merged in on the patch path; the cache receives that schema on the
create path and on the patch path without a version mismatch, while on the
version-mismatch re-fetch path the cache retains its previous entry. -/
theorem ensureTable_mutation_increments_once :
    (∀ env destinationName cache (dataSchema g : Table) (n : Int),
      cacheFind cache dataSchema.name = none →
      env.lockResult = .ok () →
      env.getTableSchemaResult = .ok g →
      Table.Exists g = false →
      env.createTableResult = none →
      env.incrementResult = .ok n →
      (EnsureTable env destinationName cache dataSchema).1 =
          .ok { dataSchema with version := n } ∧
        cacheFind (EnsureTable env destinationName cache dataSchema).2.1 dataSchema.name =
          some { dataSchema with version := n } ∧
        countOps isIncrementOp (EnsureTable env destinationName cache dataSchema).2.2 = 1) ∧
    (∀ env destinationName cache (dataSchema t : Table) (n : Int),
      cacheFind cache dataSchema.name = some t →
      Table.Exists (Table.Diff t dataSchema) = true →
      env.lockResult = .ok () →
      env.getVersionResult = .ok t.version →
      env.patchResult = none →
      env.incrementResult = .ok n →
      (EnsureTable env destinationName cache dataSchema).1 =
          .ok { t with
                columns := mergeColumns t.columns (Table.Diff t dataSchema).columns,
                version := n } ∧
        cacheFind (EnsureTable env destinationName cache dataSchema).2.1 dataSchema.name =
          some { t with
                 columns := mergeColumns t.columns (Table.Diff t dataSchema).columns,
                 version := n } ∧
        countOps isIncrementOp (EnsureTable env destinationName cache dataSchema).2.2 = 1) ∧
    (∀ env destinationName cache (dataSchema t g : Table) (v n : Int),
      cacheFind cache dataSchema.name = some t →
      Table.Exists (Table.Diff t dataSchema) = true →
      env.lockResult = .ok () →
      env.getVersionResult = .ok v →
      v ≠ t.version →
      env.getTableSchemaResult = .ok g →
      Table.Exists (Table.Diff { g with version := v } dataSchema) = true →
      env.patchResult = none →
      env.incrementResult = .ok n →
      (EnsureTable env destinationName cache dataSchema).1 =
          .ok { g with
                columns := mergeColumns g.columns
                  (Table.Diff { g with version := v } dataSchema).columns,
                version := n } ∧
        (EnsureTable env destinationName cache dataSchema).2.1 = cache ∧
        countOps isIncrementOp (EnsureTable env destinationName cache dataSchema).2.2 = 1) := by
  refine ⟨?_, ?_, ?_⟩
  · intro env destinationName cache dataSchema g n hc hlock hget hex hcr hinc
    have hdc : Table.Exists (Table.Diff { dataSchema with version := n } dataSchema) = false :=
      diff_exists_false_of_same_columns _ _ rfl
    refine ⟨?_, ?_, ?_⟩ <;>
      simp [EnsureTable, hc, getOrCreate, hlock, getOrCreateBody, hget, hex, hcr, hinc,
        ensureAfterCache, hdc, cacheFind_cacheInsert_self, countOps, List.filter_append,
        unlock_filter_increment, isIncrementOp, List.filter]
  · intro env destinationName cache dataSchema t n hc hdiff hlock hver hpatch hinc
    refine ⟨?_, ?_, ?_⟩ <;>
      simp [EnsureTable, hc, ensureAfterCache, hdiff, ensureMutate, hlock, ensureMutateBody,
        hver, patchFinish, hpatch, hinc, cacheFind_cacheInsert_self, countOps,
        List.filter_append, unlock_filter_increment, isIncrementOp, List.filter]
  · intro env destinationName cache dataSchema t g v n hc hdiff hlock hver hne hget hdiff2
      hpatch hinc
    refine ⟨?_, ?_, ?_⟩ <;>
      simp [EnsureTable, hc, ensureAfterCache, hdiff, ensureMutate, hlock, ensureMutateBody,
        hver, hne, hget, patchFinish, hdiff2, hpatch, hinc, countOps,
        List.filter_append, unlock_filter_increment, isIncrementOp, List.filter]

/-- Destination schema holding only column a, version counter value 0. -/
def tableAv0 : Table := ⟨"events", [("a", colA)], 0⟩

/-- Environment for the stale-cache patch scenario: authoritative version 2
against cached version 1, destination still missing column b. -/
def staleEnv : Env :=
  { lockResult := .ok ()
    getVersionResult := .ok 2
    incrementResult := .ok 3
    getTableSchemaResult := .ok tableAv0
    createTableResult := none
    patchResult := none
    unlockFails := fun _ => false }

/-- Counterexample to C2 as stated: a successful patch mutation on the
version-mismatch re-fetch path increments once and returns the merged schema
at version 3, yet the cache still holds the old schema at version 1 — the
returned and cached schemas differ, so the claim's "returned (and cached)"
equality fails. -/
theorem ensureTable_refetch_cache_not_updated_counterexample :
    (EnsureTable staleEnv "dest" [("events", tableA)] tableAB).1 =
        .ok ⟨"events", [("a", colA), ("b", colB)], 3⟩ ∧
      countOps isIncrementOp (EnsureTable staleEnv "dest" [("events", tableA)] tableAB).2.2 =
        1 ∧
      cacheFind (EnsureTable staleEnv "dest" [("events", tableA)] tableAB).2.1 "events" =
        some tableA ∧
      tableA.version = 1 :=
  ⟨rfl, rfl, rfl, rfl⟩

/-- Witness for C2 (amended) on the patch path without version mismatch: the
merged schema at the incremented version 2 is returned and cached, with
exactly one IncrementVersion call. -/
theorem ensureTable_mutation_increments_once_witness :
    (EnsureTable okEnv "dest" [("events", tableA)] tableAB).1 =
        .ok { tableA with
              columns := mergeColumns tableA.columns (Table.Diff tableA tableAB).columns,
              version := 2 } ∧
      cacheFind (EnsureTable okEnv "dest" [("events", tableA)] tableAB).2.1 "events" =
        some { tableA with
               columns := mergeColumns tableA.columns (Table.Diff tableA tableAB).columns,
               version := 2 } ∧
      countOps isIncrementOp (EnsureTable okEnv "dest" [("events", tableA)] tableAB).2.2 =
        1 :=
  ensureTable_mutation_increments_once.2.1 okEnv "dest" [("events", tableA)] tableAB tableA 2
    (by rfl) (by rfl) (by rfl) (by rfl) (by rfl) (by rfl)

/-- C10: when the get-or-create path finds the table absent and creates it,
the schema cached and returned is the desired schema itself with its version
set to the newly incremented counter — exactly the desired columns — and the
destination schema is fetched exactly once, with no re-fetch after creation. -/
theorem ensureTable_create_adopts_desired (env : Env) (destinationName : String)
    (cache : Cache) (dataSchema g : Table) (n : Int)
    (hc : cacheFind cache dataSchema.name = none)
    (hlock : env.lockResult = .ok ())
    (hget : env.getTableSchemaResult = .ok g)
    (hex : Table.Exists g = false)
    (hcr : env.createTableResult = none)
    (hinc : env.incrementResult = .ok n) :
    (EnsureTable env destinationName cache dataSchema).1 =
        .ok { dataSchema with version := n } ∧
      cacheFind (EnsureTable env destinationName cache dataSchema).2.1 dataSchema.name =
        some { dataSchema with version := n } ∧
      countOps isGetTableSchemaOp (EnsureTable env destinationName cache dataSchema).2.2 =
        1 := by
  have hdc : Table.Exists (Table.Diff { dataSchema with version := n } dataSchema) = false :=
    diff_exists_false_of_same_columns _ _ rfl
  refine ⟨?_, ?_, ?_⟩ <;>
    simp [EnsureTable, hc, getOrCreate, hlock, getOrCreateBody, hget, hex, hcr, hinc,
      ensureAfterCache, hdc, cacheFind_cacheInsert_self, countOps, List.filter_append,
      unlock_filter_getTableSchema, isGetTableSchemaOp, List.filter]

/-- Destination state before the table exists: GetTableSchema yields a
zero-value schema. -/
def emptyTable : Table := ⟨"events", [], 0⟩

/-- Environment for the creation scenario: the table is absent at the
destination and creating plus incrementing succeeds with version 1. -/
def createEnv : Env :=
  { lockResult := .ok ()
    getVersionResult := .ok 0
    incrementResult := .ok 1
    getTableSchemaResult := .ok emptyTable
    createTableResult := none
    patchResult := none
    unlockFails := fun _ => false }

/-- Witness for C10: creating the absent two-column table caches and returns
the desired schema at version 1 after a single schema fetch. -/
theorem ensureTable_create_adopts_desired_witness :
    (EnsureTable createEnv "dest" [] tableAB).1 = .ok { tableAB with version := 1 } ∧
      cacheFind (EnsureTable createEnv "dest" [] tableAB).2.1 "events" =
        some { tableAB with version := 1 } ∧
      countOps isGetTableSchemaOp (EnsureTable createEnv "dest" [] tableAB).2.2 = 1 :=
  ensureTable_create_adopts_desired createEnv "dest" [] tableAB emptyTable 1
    (by rfl) (by rfl) (by rfl) (by rfl) (by rfl) (by rfl)

/-- Row objects handled by the storage writer, abstracted to identifiers:
only their insert success or failure matters to the write path. -/
abbrev Obj := Nat

/-- One row-group produced by the external flattening step: a desired table
schema together with the rows targeting it (schema.ProcessedFile with
DataSchema and payload). -/
structure FData where
  dataSchema : Table
  payload : List Obj
deriving DecidableEq, Repr

/-- GetPayloadLen of a row-group. -/
def FData.GetPayloadLen (fd : FData) : Nat := fd.payload.length

/-- One observable step of the storage writer: schema-synchronizer port
operations are embedded via helper, the rest are the writer's own calls to
the schema processor and the SQL adapter. -/
inductive PgAction where
  | helper (a : PortOp)
  | processFile
  | applyDBTyping (dbSchema : Table) (fd : FData)
  | applyDBTypingObject (dbSchema : Table) (o : Obj)
  | openTx
  | insertInTransaction (s : Table) (o : Obj)
  | logSkippedRow (o : Obj)
  | rollback
  | commit
  | adapterInsert (s : Table) (o : Obj)
  | adapterClose
  | workerClose
deriving DecidableEq, Repr

/-- Pure model of the external collaborators of the Postgres storage writer:
the schema processor's flattening and coercion results, the adapter's
transaction and insert outcomes, and the close outcomes.  linesCount stands
for the best-effort line count of the raw payload. -/
structure PgEnv where
  processResult : Except Err (List FData)
  linesCount : Nat
  applyTypingResult : Table → FData → Option Err
  applyTypingObjectResult : Table → Obj → Option Err
  openTxResult : Option Err
  insertTxResult : Obj → Option Err
  commitResult : Option Err
  insertResult : Obj → Option Err
  adapterCloseResult : Option Err
  workerCloseResult : Option Err

/-- The schema loop of Postgres.Store (lines 72..81): for every row-group,
EnsureTable then ApplyDBTyping against the ensured schema; the first failure
aborts the whole call.  The table helper's cache is threaded through. -/
def ensureLoop (cenv : Env) (penv : PgEnv) (storageName : String) (cache : Cache) :
    List FData → Except Err Unit × Cache × List PgAction
  | [] => (.ok (), cache, [])
  | fdata :: rest =>
    let r := EnsureTable cenv storageName cache fdata.dataSchema
    match r.1 with
    | .error e => (.error e, r.2.1, r.2.2.map PgAction.helper)
    | .ok dbSchema =>
      match penv.applyTypingResult dbSchema fdata with
      | some e =>
        (.error e, r.2.1,
         r.2.2.map PgAction.helper ++ [PgAction.applyDBTyping dbSchema fdata])
      | none =>
        let rest2 := ensureLoop cenv penv storageName r.2.1 rest
        (rest2.1, rest2.2.1,
         r.2.2.map PgAction.helper ++ [PgAction.applyDBTyping dbSchema fdata] ++ rest2.2.2)

/-- The inner row loop of Postgres.Store (lines 90..99) for one row-group:
each row is inserted within the transaction against the group's desired
schema; a failure either rolls back and aborts (breakOnError) or is logged
and skipped. -/
def insertRows (penv : PgEnv) (breakOnError : Bool) (s : Table) :
    List Obj → Option Err × List PgAction
  | [] => (none, [])
  | o :: rest =>
    match penv.insertTxResult o with
    | some e =>
      if breakOnError then (some e, [PgAction.insertInTransaction s o, PgAction.rollback])
      else
        let r := insertRows penv breakOnError s rest
        (r.1, PgAction.insertInTransaction s o :: PgAction.logSkippedRow o :: r.2)
    | none =>
      let r := insertRows penv breakOnError s rest
      (r.1, PgAction.insertInTransaction s o :: r.2)

/-- The outer row loop of Postgres.Store (lines 89..100) over all row-groups. -/
def insertLoop (penv : PgEnv) (breakOnError : Bool) :
    List FData → Option Err × List PgAction
  | [] => (none, [])
  | fdata :: rest =>
    let r := insertRows penv breakOnError fdata.dataSchema fdata.payload
    match r.1 with
    | some e => (some e, r.2)
    | none =>
      let r2 := insertLoop penv breakOnError rest
      (r2.1, r.2 ++ r2.2)

/-- Total row count of a flattened payload (lines 66..69). -/
def sumLens (flatData : List FData) : Nat :=
  (flatData.map (fun fd => fd.payload.length)).sum

/-- All rows of a flattened payload in insertion order. -/
def flatObjs (flatData : List FData) : List Obj :=
  (flatData.map FData.payload).flatten

/-- Postgres.Store of postgres.go: flatten (failure returns the raw line
count), count the rows for reporting, ensure every group's schema and coerce
its rows, then insert every row in one transaction honoring breakOnError,
and commit.  Returns the attempted row count, the error if any, the table
helper's new cache, and the trace. -/
def Postgres.Store (cenv : Env) (penv : PgEnv) (breakOnError : Bool)
    (storageName : String) (cache : Cache) :
    Nat × Option Err × Cache × List PgAction :=
  match penv.processResult with
  | .error e => (penv.linesCount, some e, cache, [PgAction.processFile])
  | .ok flatData =>
    let rowsCount := sumLens flatData
    let r := ensureLoop cenv penv storageName cache flatData
    match r.1 with
    | .error e => (rowsCount, some e, r.2.1, PgAction.processFile :: r.2.2)
    | .ok _ =>
      match penv.openTxResult with
      | some e =>
        (rowsCount, some ⟨"Error opening postgres transaction: " ++ e.msg⟩, r.2.1,
         PgAction.processFile :: r.2.2 ++ [PgAction.openTx])
      | none =>
        let ri := insertLoop penv breakOnError flatData
        match ri.1 with
        | some e =>
          (rowsCount, some e, r.2.1,
           PgAction.processFile :: r.2.2 ++ [PgAction.openTx] ++ ri.2)
        | none =>
          (rowsCount, penv.commitResult, r.2.1,
           PgAction.processFile :: r.2.2 ++ [PgAction.openTx] ++ ri.2 ++ [PgAction.commit])

/-- Postgres.Insert of postgres.go (streaming entry point): EnsureTable, then
ApplyDBTypingToObject against the ensured schema, then the adapter insert —
executed against the caller's desired schema. -/
def Postgres.Insert (cenv : Env) (penv : PgEnv) (storageName : String) (cache : Cache)
    (dataSchema : Table) (fact : Obj) : Option Err × Cache × List PgAction :=
  let r := EnsureTable cenv storageName cache dataSchema
  match r.1 with
  | .error e => (some e, r.2.1, r.2.2.map PgAction.helper)
  | .ok dbSchema =>
    match penv.applyTypingObjectResult dbSchema fact with
    | some e =>
      (some e, r.2.1,
       r.2.2.map PgAction.helper ++ [PgAction.applyDBTypingObject dbSchema fact])
    | none =>
      (penv.insertResult fact, r.2.1,
       r.2.2.map PgAction.helper ++
         [PgAction.applyDBTypingObject dbSchema fact,
          PgAction.adapterInsert dataSchema fact])

/-- Postgres.Close of postgres.go: close the adapter; if that fails, return
the wrapped error immediately; otherwise stop the streaming worker when one
is running (its close outcome is not consulted) and return nil. -/
def Postgres.Close (penv : PgEnv) (storageName : String) (hasWorker : Bool) :
    Option Err × List PgAction :=
  match penv.adapterCloseResult with
  | some e =>
    (some ⟨"[" ++ storageName ++ "] Error closing postgres datasource: " ++ e.msg⟩,
     [PgAction.adapterClose])
  | none =>
    if hasWorker then (none, [PgAction.adapterClose, PgAction.workerClose])
    else (none, [PgAction.adapterClose])

/-- With breakOnError set, the first failing row determines the returned
error and the trace contains the rollback. -/
theorem insertRows_break_some (penv : PgEnv) (s : Table) :
    ∀ objs o, objs.find? (fun x => (penv.insertTxResult x).isSome) = some o →
      (insertRows penv true s objs).1 = penv.insertTxResult o ∧
      PgAction.rollback ∈ (insertRows penv true s objs).2 := by
  intro objs
  induction objs with
  | nil => intro o h; simp at h
  | cons a rest ih =>
    intro o h
    cases hi : penv.insertTxResult a with
    | some e =>
      simp only [List.find?, hi, Option.isSome_some] at h
      injection h with h2
      subst h2
      simp [insertRows, hi]
    | none =>
      simp only [List.find?, hi, Option.isSome_none] at h
      have := ih o h
      simp [insertRows, hi, this.1, this.2]

/-- With breakOnError set and no failing row, the row loop reports no error. -/
theorem insertRows_break_none (penv : PgEnv) (s : Table) :
    ∀ objs, objs.find? (fun x => (penv.insertTxResult x).isSome) = none →
      (insertRows penv true s objs).1 = none := by
  intro objs
  induction objs with
  | nil => intro h; simp [insertRows]
  | cons a rest ih =>
    intro h
    rw [List.find?_eq_none] at h
    cases hi : penv.insertTxResult a with
    | some e => have := h a (by simp); simp [hi] at this
    | none =>
      simp only [insertRows, hi]
      exact ih (by rw [List.find?_eq_none]; intro x hx; exact h x (List.mem_cons_of_mem a hx))

/-- Without breakOnError, the row loop itself never reports an error. -/
theorem insertRows_false_fst (penv : PgEnv) (s : Table) :
    ∀ objs, (insertRows penv false s objs).1 = none := by
  intro objs
  induction objs with
  | nil => simp [insertRows]
  | cons a rest ih =>
    cases hi : penv.insertTxResult a with
    | some e => simp [insertRows, hi, ih]
    | none => simp [insertRows, hi, ih]

/-- Without breakOnError, the row loop never rolls back. -/
theorem insertRows_false_no_rollback (penv : PgEnv) (s : Table) :
    ∀ objs, PgAction.rollback ∉ (insertRows penv false s objs).2 := by
  intro objs
  induction objs with
  | nil => simp [insertRows]
  | cons a rest ih =>
    cases hi : penv.insertTxResult a with
    | some e => simp [insertRows, hi]; exact ih
    | none => simp [insertRows, hi]; exact ih

/-- Without breakOnError, every failing row is logged as skipped. -/
theorem insertRows_false_logs (penv : PgEnv) (s : Table) :
    ∀ objs o, o ∈ objs → (penv.insertTxResult o).isSome = true →
      PgAction.logSkippedRow o ∈ (insertRows penv false s objs).2 := by
  intro objs
  induction objs with
  | nil => intro o h; simp at h
  | cons a rest ih =>
    intro o h hfail
    rcases List.mem_cons.mp h with rfl | hmem
    · cases hi : penv.insertTxResult o with
      | some e => simp [insertRows, hi]
      | none => rw [hi] at hfail; simp at hfail
    · cases hi : penv.insertTxResult a with
      | some e => simp [insertRows, hi]; exact Or.inr (ih o hmem hfail)
      | none => simp [insertRows, hi]; exact ih o hmem hfail

/-- Shape of every action emitted by the row loop: an insert against the
given (desired) schema of a row of the list, a skip log, or the rollback. -/
theorem insertRows_mem (penv : PgEnv) (breakOnError : Bool) (s : Table) :
    ∀ objs a, a ∈ (insertRows penv breakOnError s objs).2 →
      (∃ o ∈ objs, a = PgAction.insertInTransaction s o) ∨
      (∃ o ∈ objs, a = PgAction.logSkippedRow o) ∨ a = PgAction.rollback := by
  intro objs
  induction objs with
  | nil => intro a ha; simp [insertRows] at ha
  | cons b rest ih =>
    intro a ha
    cases hi : penv.insertTxResult b with
    | some e =>
      rw [insertRows, hi] at ha
      cases hb : breakOnError
      · subst hb
        simp only [if_neg Bool.false_ne_true] at ha
        rcases List.mem_cons.mp ha with rfl | ha2
        · exact Or.inl ⟨b, by simp, rfl⟩
        · rcases List.mem_cons.mp ha2 with rfl | ha3
          · exact Or.inr (Or.inl ⟨b, by simp, rfl⟩)
          · rcases ih a ha3 with ⟨o, ho, rfl⟩ | ⟨o, ho, rfl⟩ | rfl
            · exact Or.inl ⟨o, by simp [ho], rfl⟩
            · exact Or.inr (Or.inl ⟨o, by simp [ho], rfl⟩)
            · exact Or.inr (Or.inr rfl)
      · subst hb
        simp only [if_pos rfl] at ha
        rcases List.mem_cons.mp ha with rfl | ha2
        · exact Or.inl ⟨b, by simp, rfl⟩
        · rcases List.mem_cons.mp ha2 with rfl | ha3
          · exact Or.inr (Or.inr rfl)
          · simp at ha3
    | none =>
      rw [insertRows, hi] at ha
      rcases List.mem_cons.mp ha with rfl | ha2
      · exact Or.inl ⟨b, by simp, rfl⟩
      · rcases ih a ha2 with ⟨o, ho, rfl⟩ | ⟨o, ho, rfl⟩ | rfl
        · exact Or.inl ⟨o, by simp [ho], rfl⟩
        · exact Or.inr (Or.inl ⟨o, by simp [ho], rfl⟩)
        · exact Or.inr (Or.inr rfl)

/-- With breakOnError set, the first failing row across all groups determines
the error returned by the outer loop, and the rollback is in the trace. -/
theorem insertLoop_break_some (penv : PgEnv) :
    ∀ flatData o,
      (flatObjs flatData).find? (fun x => (penv.insertTxResult x).isSome) = some o →
      (insertLoop penv true flatData).1 = penv.insertTxResult o ∧
      PgAction.rollback ∈ (insertLoop penv true flatData).2 := by
  intro flatData
  induction flatData with
  | nil => intro o h; simp [flatObjs] at h
  | cons fd rest ih =>
    intro o h
    have happ : flatObjs (fd :: rest) = fd.payload ++ flatObjs rest := by
      simp [flatObjs]
    rw [happ, List.find?_append] at h
    cases hfd : fd.payload.find? (fun x => (penv.insertTxResult x).isSome) with
    | some o1 =>
      rw [hfd] at h
      simp at h
      subst h
      have hr := insertRows_break_some penv fd.dataSchema fd.payload o1 hfd
      have hsome : ∃ e, penv.insertTxResult o1 = some e := by
        have := List.find?_some hfd
        simp at this
        exact Option.isSome_iff_exists.mp this
      rcases hsome with ⟨e, he⟩
      rw [he] at hr
      simp [insertLoop, hr.1, he]
      exact hr.2
    | none =>
      rw [hfd] at h
      simp at h
      have hnone := insertRows_break_none penv fd.dataSchema fd.payload hfd
      have := ih o h
      simp [insertLoop, hnone, this.1]
      exact Or.inr this.2

/-- Without breakOnError, the outer row loop reports no error of its own. -/
theorem insertLoop_false_fst (penv : PgEnv) :
    ∀ flatData, (insertLoop penv false flatData).1 = none := by
  intro flatData
  induction flatData with
  | nil => simp [insertLoop]
  | cons fd rest ih =>
    simp [insertLoop, insertRows_false_fst, ih]

/-- Without breakOnError, the outer row loop never rolls back. -/
theorem insertLoop_false_no_rollback (penv : PgEnv) :
    ∀ flatData, PgAction.rollback ∉ (insertLoop penv false flatData).2 := by
  intro flatData
  induction flatData with
  | nil => simp [insertLoop]
  | cons fd rest ih =>
    simp [insertLoop, insertRows_false_fst]
    exact ⟨insertRows_false_no_rollback penv fd.dataSchema fd.payload, ih⟩

/-- Without breakOnError, every failing row of any group is logged as
skipped. -/
theorem insertLoop_false_logs (penv : PgEnv) :
    ∀ flatData o, o ∈ flatObjs flatData → (penv.insertTxResult o).isSome = true →
      PgAction.logSkippedRow o ∈ (insertLoop penv false flatData).2 := by
  intro flatData
  induction flatData with
  | nil => intro o h; simp [flatObjs] at h
  | cons fd rest ih =>
    intro o h hfail
    have happ : flatObjs (fd :: rest) = fd.payload ++ flatObjs rest := by
      simp [flatObjs]
    rw [happ, List.mem_append] at h
    simp [insertLoop, insertRows_false_fst]
    rcases h with h | h
    · exact Or.inl (insertRows_false_logs penv fd.dataSchema fd.payload o h hfail)
    · exact Or.inr (ih o h hfail)

/-- Shape of every action emitted by the outer row loop: an insert of a row
of some group against that group's desired schema, a skip log, or the
rollback.  In particular no commit, and every insert is executed against a
desired (caller-side) schema, never against the EnsureTable result. -/
theorem insertLoop_mem (penv : PgEnv) (breakOnError : Bool) :
    ∀ flatData a, a ∈ (insertLoop penv breakOnError flatData).2 →
      (∃ fd ∈ flatData, ∃ o ∈ fd.payload,
        a = PgAction.insertInTransaction fd.dataSchema o) ∨
      (∃ o, a = PgAction.logSkippedRow o) ∨ a = PgAction.rollback := by
  intro flatData
  induction flatData with
  | nil => intro a ha; simp [insertLoop] at ha
  | cons fd rest ih =>
    intro a ha
    rw [insertLoop] at ha
    cases hr : (insertRows penv breakOnError fd.dataSchema fd.payload).1 with
    | some e =>
      rw [hr] at ha
      simp only at ha
      rcases insertRows_mem penv breakOnError fd.dataSchema fd.payload a ha with
        ⟨o, ho, rfl⟩ | ⟨o, ho, rfl⟩ | rfl
      · exact Or.inl ⟨fd, by simp, o, ho, rfl⟩
      · exact Or.inr (Or.inl ⟨o, rfl⟩)
      · exact Or.inr (Or.inr rfl)
    | none =>
      rw [hr] at ha
      simp only at ha
      rcases List.mem_append.mp ha with ha2 | ha2
      · rcases insertRows_mem penv breakOnError fd.dataSchema fd.payload a ha2 with
          ⟨o, ho, rfl⟩ | ⟨o, ho, rfl⟩ | rfl
        · exact Or.inl ⟨fd, by simp, o, ho, rfl⟩
        · exact Or.inr (Or.inl ⟨o, rfl⟩)
        · exact Or.inr (Or.inr rfl)
      · rcases ih a ha2 with ⟨fd2, hfd2, o, ho, rfl⟩ | h | h
        · exact Or.inl ⟨fd2, by simp [hfd2], o, ho, rfl⟩
        · exact Or.inr (Or.inl h)
        · exact Or.inr (Or.inr h)

/-- Shape of every action emitted by the schema loop: a helper port operation
or an ApplyDBTyping call whose schema is an EnsureTable success result for
that group's desired schema. -/
theorem ensureLoop_mem (cenv : Env) (penv : PgEnv) (storageName : String) :
    ∀ flatData cache a, a ∈ (ensureLoop cenv penv storageName cache flatData).2.2 →
      (∃ h2, a = PgAction.helper h2) ∨
      (∃ s fd, a = PgAction.applyDBTyping s fd ∧ fd ∈ flatData ∧
        ∃ c2, (EnsureTable cenv storageName c2 fd.dataSchema).1 = .ok s) := by
  intro flatData
  induction flatData with
  | nil => intro cache a ha; simp [ensureLoop] at ha
  | cons fd rest ih =>
    intro cache a ha
    rw [ensureLoop] at ha
    cases hr : (EnsureTable cenv storageName cache fd.dataSchema).1 with
    | error e =>
      rw [hr] at ha
      simp only at ha
      rcases List.mem_map.mp ha with ⟨h2, _, rfl⟩
      exact Or.inl ⟨h2, rfl⟩
    | ok dbSchema =>
      rw [hr] at ha
      simp only at ha
      cases ht : penv.applyTypingResult dbSchema fd with
      | some e =>
        rw [ht] at ha
        simp only at ha
        rcases List.mem_append.mp ha with ha2 | ha2
        · rcases List.mem_map.mp ha2 with ⟨h2, _, rfl⟩
          exact Or.inl ⟨h2, rfl⟩
        · rcases List.mem_singleton.mp ha2 with rfl
          exact Or.inr ⟨dbSchema, fd, rfl, by simp, cache, hr⟩
      | none =>
        rw [ht] at ha
        simp only at ha
        rcases List.mem_append.mp ha with ha2 | ha2
        · rcases List.mem_append.mp ha2 with ha3 | ha3
          · rcases List.mem_map.mp ha3 with ⟨h2, _, rfl⟩
            exact Or.inl ⟨h2, rfl⟩
          · rcases List.mem_singleton.mp ha3 with rfl
            exact Or.inr ⟨dbSchema, fd, rfl, by simp, cache, hr⟩
        · rcases ih _ a ha2 with h | ⟨s, fd2, rfl, hfd2, c2, hok⟩
          · exact Or.inl h
          · exact Or.inr ⟨s, fd2, rfl, by simp [hfd2], c2, hok⟩

/-- C4: in Store, with breakOnError the first failing row's error is returned
with the total attempted row count, the transaction is rolled back and never
committed; without breakOnError every failing row is logged and skipped, the
transaction is committed (never rolled back) and the call returns the total
attempted row count together with the commit's error, if any. -/
theorem store_break_on_error_policy :
    (∀ cenv penv storageName cache flatData o,
      penv.processResult = .ok flatData →
      (ensureLoop cenv penv storageName cache flatData).1 = .ok () →
      penv.openTxResult = none →
      (flatObjs flatData).find? (fun x => (penv.insertTxResult x).isSome) = some o →
      (Postgres.Store cenv penv true storageName cache).1 = sumLens flatData ∧
        (Postgres.Store cenv penv true storageName cache).2.1 = penv.insertTxResult o ∧
        PgAction.rollback ∈ (Postgres.Store cenv penv true storageName cache).2.2.2 ∧
        PgAction.commit ∉ (Postgres.Store cenv penv true storageName cache).2.2.2) ∧
    (∀ cenv penv storageName cache flatData,
      penv.processResult = .ok flatData →
      (ensureLoop cenv penv storageName cache flatData).1 = .ok () →
      penv.openTxResult = none →
      (Postgres.Store cenv penv false storageName cache).1 = sumLens flatData ∧
        (Postgres.Store cenv penv false storageName cache).2.1 = penv.commitResult ∧
        PgAction.commit ∈ (Postgres.Store cenv penv false storageName cache).2.2.2 ∧
        PgAction.rollback ∉ (Postgres.Store cenv penv false storageName cache).2.2.2 ∧
        (∀ o, o ∈ flatObjs flatData → (penv.insertTxResult o).isSome = true →
          PgAction.logSkippedRow o ∈
            (Postgres.Store cenv penv false storageName cache).2.2.2)) := by
  constructor
  · intro cenv penv storageName cache flatData o hproc hens htx hfind
    have hloop := insertLoop_break_some penv flatData o hfind
    have hsome : ∃ e, penv.insertTxResult o = some e := by
      have := List.find?_some hfind
      simp at this
      exact Option.isSome_iff_exists.mp this
    rcases hsome with ⟨e, he⟩
    have hl1 : (insertLoop penv true flatData).1 = some e := by rw [hloop.1, he]
    refine ⟨?_, ?_, ?_, ?_⟩
    · simp [Postgres.Store, hproc, hens, htx, hl1]
    · simp [Postgres.Store, hproc, hens, htx, hl1, he]
    · simp [Postgres.Store, hproc, hens, htx, hl1]
      exact Or.inr hloop.2
    · intro hmem
      simp [Postgres.Store, hproc, hens, htx, hl1] at hmem
      rcases hmem with hmem | hmem
      · rcases ensureLoop_mem cenv penv storageName flatData cache PgAction.commit hmem with
          ⟨h2, hh⟩ | ⟨s, fd, hh, hrest⟩ <;> simp at hh
      · rcases insertLoop_mem penv true flatData PgAction.commit hmem with
          ⟨fd, hfd, o2, ho2, hh⟩ | ⟨o2, hh⟩ | hh <;> simp at hh
  · intro cenv penv storageName cache flatData hproc hens htx
    have hl1 := insertLoop_false_fst penv flatData
    refine ⟨?_, ?_, ?_, ?_, ?_⟩
    · simp [Postgres.Store, hproc, hens, htx, hl1]
    · simp [Postgres.Store, hproc, hens, htx, hl1]
    · simp [Postgres.Store, hproc, hens, htx, hl1]
    · intro hmem
      simp [Postgres.Store, hproc, hens, htx, hl1] at hmem
      rcases hmem with hmem | hmem
      · rcases ensureLoop_mem cenv penv storageName flatData cache PgAction.rollback hmem with
          ⟨h2, hh⟩ | ⟨s, fd, hh, hrest⟩ <;> simp at hh
      · exact insertLoop_false_no_rollback penv flatData hmem
    · intro o ho hfail
      have hlog := insertLoop_false_logs penv flatData o ho hfail
      simp [Postgres.Store, hproc, hens, htx, hl1]
      exact Or.inr hlog

/-- The five-row single-group payload in which row 2 fails to insert. -/
def fdW : FData := ⟨tableA, [1, 2, 3, 4, 5]⟩

/-- Concrete storage-writer environment for the break-on-error scenarios:
flattening yields fdW, typing always succeeds, opening and committing the
transaction succeed, and exactly row 2 fails to insert. -/
def pgEnvW : PgEnv :=
  { processResult := .ok [fdW]
    linesCount := 5
    applyTypingResult := fun _ _ => none
    applyTypingObjectResult := fun _ _ => none
    openTxResult := none
    insertTxResult := fun o => if o = 2 then some ⟨"insert failed"⟩ else none
    commitResult := none
    insertResult := fun _ => none
    adapterCloseResult := none
    workerCloseResult := none }

/-- Witness for C4 on the five-row payload with row 2 failing: breakOnError
returns that row's error with a rollback and no commit at the attempted count
5; skip-on-error commits, returns the commit result at count 5, and logs the
skipped row. -/
theorem store_break_on_error_policy_witness :
    (Postgres.Store okEnv pgEnvW true "dest" [("events", tableA)]).1 = sumLens [fdW] ∧
      (Postgres.Store okEnv pgEnvW true "dest" [("events", tableA)]).2.1 =
        pgEnvW.insertTxResult 2 ∧
      PgAction.rollback ∈ (Postgres.Store okEnv pgEnvW true "dest" [("events", tableA)]).2.2.2 ∧
      PgAction.commit ∉ (Postgres.Store okEnv pgEnvW true "dest" [("events", tableA)]).2.2.2 ∧
      (Postgres.Store okEnv pgEnvW false "dest" [("events", tableA)]).1 = sumLens [fdW] ∧
      (Postgres.Store okEnv pgEnvW false "dest" [("events", tableA)]).2.1 =
        pgEnvW.commitResult ∧
      PgAction.commit ∈ (Postgres.Store okEnv pgEnvW false "dest" [("events", tableA)]).2.2.2 ∧
      PgAction.logSkippedRow 2 ∈
        (Postgres.Store okEnv pgEnvW false "dest" [("events", tableA)]).2.2.2 := by
  have ha := store_break_on_error_policy.1 okEnv pgEnvW "dest" [("events", tableA)] [fdW] 2
    (by rfl) (by rfl) (by rfl) (by rfl)
  have hb := store_break_on_error_policy.2 okEnv pgEnvW "dest" [("events", tableA)] [fdW]
    (by rfl) (by rfl) (by rfl)
  exact ⟨ha.1, ha.2.1, ha.2.2.1, ha.2.2.2, hb.1, hb.2.1, hb.2.2.1,
    hb.2.2.2.2 2 (by simp [flatObjs, fdW]) (by rfl)⟩

/-- C9: in both entry points the adapter insert is executed against the
caller's desired schema — in Insert the final action is adapterInsert with
the dataSchema argument (while the coercion step receives the EnsureTable
result), and in Store every insertInTransaction action carries some group's
DataSchema; only ApplyDBTyping actions receive EnsureTable results. -/
theorem insert_executes_against_desired_schema :
    (∀ cenv penv storageName cache dataSchema fact dbSchema,
      (EnsureTable cenv storageName cache dataSchema).1 = .ok dbSchema →
      penv.applyTypingObjectResult dbSchema fact = none →
      Postgres.Insert cenv penv storageName cache dataSchema fact =
        (penv.insertResult fact, (EnsureTable cenv storageName cache dataSchema).2.1,
         (EnsureTable cenv storageName cache dataSchema).2.2.map PgAction.helper ++
           [PgAction.applyDBTypingObject dbSchema fact,
            PgAction.adapterInsert dataSchema fact])) ∧
    (∀ cenv penv breakOnError storageName cache flatData s o,
      penv.processResult = .ok flatData →
      (ensureLoop cenv penv storageName cache flatData).1 = .ok () →
      penv.openTxResult = none →
      PgAction.insertInTransaction s o ∈
        (Postgres.Store cenv penv breakOnError storageName cache).2.2.2 →
      ∃ fd ∈ flatData, s = fd.dataSchema ∧ o ∈ fd.payload) ∧
    (∀ cenv penv storageName cache flatData s fd,
      PgAction.applyDBTyping s fd ∈ (ensureLoop cenv penv storageName cache flatData).2.2 →
      fd ∈ flatData ∧ ∃ c2, (EnsureTable cenv storageName c2 fd.dataSchema).1 = .ok s) := by
  refine ⟨?_, ?_, ?_⟩
  · intro cenv penv storageName cache dataSchema fact dbSchema h1 h2
    simp [Postgres.Insert, h1, h2]
  · intro cenv penv breakOnError storageName cache flatData s o hproc hens htx hmem
    have hdecomp : PgAction.insertInTransaction s o ∈
        (ensureLoop cenv penv storageName cache flatData).2.2 ∨
        PgAction.insertInTransaction s o ∈ (insertLoop penv breakOnError flatData).2 := by
      cases hri : (insertLoop penv breakOnError flatData).1 with
      | none =>
        simp [Postgres.Store, hproc, hens, htx, hri] at hmem
        exact hmem
      | some e =>
        simp [Postgres.Store, hproc, hens, htx, hri] at hmem
        exact hmem
    rcases hdecomp with hmem2 | hmem2
    · rcases ensureLoop_mem cenv penv storageName flatData cache _ hmem2 with
        ⟨h2, hh⟩ | ⟨s2, fd2, hh, hrest⟩ <;> simp at hh
    · rcases insertLoop_mem penv breakOnError flatData _ hmem2 with
        ⟨fd, hfd, o2, ho2, hh⟩ | ⟨o2, hh⟩ | hh
      · injection hh with hs ho
        subst hs
        subst ho
        exact ⟨fd, hfd, rfl, ho2⟩
      · simp at hh
      · simp at hh
  · intro cenv penv storageName cache flatData s fd hmem
    rcases ensureLoop_mem cenv penv storageName flatData cache _ hmem with
      ⟨h2, hh⟩ | ⟨s2, fd2, hh, hfd2, c2, hok⟩
    · simp at hh
    · injection hh with hs hf
      subst hs
      subst hf
      exact ⟨hfd2, c2, hok⟩

/-- Witness for C9: with the two-column schema cached and the one-column
schema desired, EnsureTable returns the (different) cached schema; the
coercion receives it, but the final adapter insert is executed against the
desired one-column schema. -/
theorem insert_executes_against_desired_schema_witness :
    Postgres.Insert okEnv pgEnvW "dest" [("events", tableAB)] tableA 7 =
      (pgEnvW.insertResult 7, [("events", tableAB)],
       [PgAction.applyDBTypingObject tableAB 7, PgAction.adapterInsert tableA 7]) ∧
      (fdW ∈ [fdW] ∧
        ∃ c2, (EnsureTable okEnv "dest" c2 fdW.dataSchema).1 = .ok tableA) := by
  constructor
  · have h := insert_executes_against_desired_schema.1 okEnv pgEnvW "dest"
      [("events", tableAB)] tableA 7 tableAB (by rfl) (by rfl)
    exact h.trans (by rfl)
  · exact insert_executes_against_desired_schema.2.2 okEnv pgEnvW "dest"
      [("events", tableA)] [fdW] tableA fdW (by decide)

/-- Storage-writer environment in which closing the adapter connection fails
while a worker close failure is also pending. -/
def closeFailEnv : PgEnv :=
  { pgEnvW with
      adapterCloseResult := some ⟨"boom"⟩
      workerCloseResult := some ⟨"wboom"⟩ }

/-- Storage-writer environment in which only the worker close fails. -/
def workerFailEnv : PgEnv :=
  { pgEnvW with workerCloseResult := some ⟨"wboom"⟩ }

/-- Counterexample to C6 as stated: with a running worker, a failing adapter
close makes Close return immediately — the worker shutdown is never attempted;
and when only the worker close fails, Close still returns nil — the worker
failure is not surfaced.  Both halves of the claim fail on the code. -/
theorem close_not_both_attempted_counterexample :
    (Postgres.Close closeFailEnv "pg" true =
        (some ⟨"[pg] Error closing postgres datasource: boom"⟩, [PgAction.adapterClose]) ∧
      PgAction.workerClose ∉ (Postgres.Close closeFailEnv "pg" true).2) ∧
    (workerFailEnv.workerCloseResult = some ⟨"wboom"⟩ ∧
      Postgres.Close workerFailEnv "pg" true =
        (none, [PgAction.adapterClose, PgAction.workerClose])) :=
  ⟨⟨rfl, by decide⟩, rfl, rfl⟩

/-- C6 (amended): Close closes the destination connection first; if that
fails, it returns the wrapped error immediately without attempting to stop
the streaming worker; if it succeeds, the worker (when running) is stopped
with its outcome discarded and Close returns nil — the two shutdowns are not
both attempted on failure and the worker failure is never surfaced. -/
theorem close_short_circuits :
    (∀ penv storageName hasWorker e, penv.adapterCloseResult = some e →
      Postgres.Close penv storageName hasWorker =
        (some ⟨"[" ++ storageName ++ "] Error closing postgres datasource: " ++ e.msg⟩,
         [PgAction.adapterClose])) ∧
    (∀ penv storageName hasWorker, penv.adapterCloseResult = none →
      Postgres.Close penv storageName hasWorker =
        (none, PgAction.adapterClose ::
          if hasWorker then [PgAction.workerClose] else [])) := by
  constructor
  · intro penv storageName hasWorker e h
    simp [Postgres.Close, h]
  · intro penv storageName hasWorker h
    cases hasWorker <;> simp [Postgres.Close, h]

/-- Witness for C6 (amended) at the two concrete environments. -/
theorem close_short_circuits_witness :
    Postgres.Close closeFailEnv "pg" true =
      (some ⟨"[pg] Error closing postgres datasource: boom"⟩, [PgAction.adapterClose]) ∧
    Postgres.Close workerFailEnv "pg" true =
      (none, PgAction.adapterClose :: if true then [PgAction.workerClose] else []) :=
  ⟨close_short_circuits.1 closeFailEnv "pg" true ⟨"boom"⟩ rfl,
   close_short_circuits.2 workerFailEnv "pg" true rfl⟩
